import Mathlib

/-!
Verification of the GraphQL query extraction engine (file-parser).

Shallow embedding of the extraction pipeline: generateQueryName, the three
traversal passes of findGraphQLTags (StaticQuery elements, useStaticQuery
hook calls, exported page queries) with identifier-to-variable resolution,
the uniqBy deduplication on location keys, parseToAst with its preprocessed
candidate loop, and FileParser.parseFile / parseFiles with the process-wide
cache.  Side effects (reporter warnings and errors, redux action dispatches)
are made explicit as a list of notes, and the babel parse / traversal work
is counted so that the cache short-circuits are observable.

Machine details outside the model, noted where they matter: the md5 digest
of file path plus contents is modelled as the (path, contents) pair itself
(hash collisions are not modelled), and babel / graphql parsing is modelled
by supplying the parsed syntax data directly.
-/

namespace QueryExtraction

/-! ## lodash camelCase (ASCII model)

Models lodash camelCase on ASCII input: apostrophes are stripped, the
string is split into words at non-alphanumeric characters, at
lower-to-upper boundaries and at letter-to-digit boundaries (a run of
several uppercase letters followed by lowercase letters donates its last
letter to the lowercase word), then the first word is lowercased and every
later word is lowercased and capitalised.  The Unicode branches of lodash
word splitting (deburring, ordinal suffixes, non-ASCII letters) are outside
the model. -/

inductive CharClass
  | upper | lower | digit | other
deriving DecidableEq

def charClass (c : Char) : CharClass :=
  if c.isUpper then .upper
  else if c.isLower then .lower
  else if c.isDigit then .digit
  else .other

def pushChar (acc : List (CharClass × List Char)) (c : Char) :
    List (CharClass × List Char) :=
  match acc with
  | (cls, run) :: rest =>
      if charClass c = cls then (cls, c :: run) :: rest
      else (charClass c, [c]) :: (cls, run) :: rest
  | [] => [(charClass c, [c])]

def classRuns (cs : List Char) : List (CharClass × List Char) :=
  ((cs.foldl pushChar []).map fun p => (p.1, p.2.reverse)).reverse

def mergeRuns : List (CharClass × List Char) → List (List Char)
  | (CharClass.upper, us) :: (CharClass.lower, ls) :: rest =>
      if us.length ≤ 1 then (us ++ ls) :: mergeRuns rest
      else us.dropLast :: (us.drop (us.length - 1) ++ ls) :: mergeRuns rest
  | (_, r) :: rest => r :: mergeRuns rest
  | [] => []

def lowerWord (w : List Char) : List Char := w.map Char.toLower

def capitalWord (w : List Char) : List Char :=
  match lowerWord w with
  | [] => []
  | c :: cs => c.toUpper :: cs

def asciiWords (s : String) : List (List Char) :=
  mergeRuns ((classRuns (s.toList.filter fun c =>
      !(c == Char.ofNat 39 || c == Char.ofNat 8217))).filter
    fun p => match p.1 with | CharClass.other => false | _ => true)

def camelCase (s : String) : String :=
  match asciiWords s with
  | [] => ""
  | w :: ws => String.mk (lowerWord w ++ (ws.map capitalWord).flatten)

/-! ## Data model -/

/-- One definition node of a parsed graphql template literal: the value of
its name node (`def.name.value`; none when the author wrote no name node)
and `def.loc.start`, the definition location inside the template text. -/
structure GqlDefNode where
  nameValue : Option String
  locStart : Nat
deriving DecidableEq

/-- A TaggedTemplateExpression node: `node.start` is its source offset in
the file; the remaining fields are what getGraphQLTag reads off it —
whether the tag is the graphql tag at all, whether that tag is the
deprecated bare global, the raw template text, its content hash, and the
definitions of the parsed graphql document. -/
structure TaggedTemplate where
  start : Nat
  isGraphqlTag : Bool
  isGlobal : Bool
  text : String
  hash : String
  defs : List GqlDefNode
deriving DecidableEq

/-- Result object of getGraphQLTag when the tag is recognised. -/
structure TagResult where
  defs : List GqlDefNode
  text : String
  hash : String
  isGlobal : Bool
deriving DecidableEq

/-- getGraphQLTag: null ast unless the template is tagged with graphql. -/
def getGraphQLTag (t : TaggedTemplate) : Option TagResult :=
  if t.isGraphqlTag then some ⟨t.defs, t.text, t.hash, t.isGlobal⟩ else none

/-- One extracted definition as pushed onto `queries`.  Absent JS object
fields are `none`: the page-query pass pushes the raw graphql definitions
without setting isStaticQuery / isHook / text / hash, so only name and the
dedup location key are always present. -/
structure Fragment where
  name : Option String
  locationKey : String
  isStaticQuery : Option Bool
  isHook : Option Bool
  text : Option String
  hash : Option String
deriving DecidableEq

/-- Side effects of extraction: reporter output and redux dispatches. -/
inductive Note
  | warnUnknownQueryVariable (varName file usageFunction : String)
  | warnGlobalTag (file : String)
  | reportError (file : String)
  | reportParseFailed (file : String)
  | reportReadFailed (file : String)
  | queryExtractionGraphQLError (file : String)
  | queryExtractionBabelError (file : String)
  | queryExtractedBabelSuccess (file : String)
deriving DecidableEq

/-- generateQueryName: replace the name when there is no name node or its
value is falsy (the empty string), with camelCase of the file path followed
by the template content hash; otherwise keep the author's name. -/
def generateQueryName (nameValue : Option String) (hash : String)
    (file : String) : Option String :=
  match nameValue with
  | some v => if v = "" then some (camelCase file ++ hash) else some v
  | none => some (camelCase file ++ hash)

/-- The dedup key stored in documentLocations: the template literal's
source offset and the definition's offset inside the template. -/
def mkLocationKey (tteStart defLocStart : Nat) : String :=
  toString tteStart ++ "-" ++ toString defLocStart

/-- extractStaticQuery: for a recognised graphql template, record each
definition under its location key, run generateQueryName, and mark the
definitions with isStaticQuery, isHook, text and hash.  Returns the
fragments pushed onto queries together with the notes emitted. -/
def extractStaticQuery (file : String) (t : TaggedTemplate)
    (isHook : Bool) : List Fragment × List Note :=
  match getGraphQLTag t with
  | none => ([], [])
  | some res =>
      (res.defs.map fun d =>
        { name := generateQueryName d.nameValue res.hash file
          locationKey := mkLocationKey t.start d.locStart
          isStaticQuery := some true
          isHook := some isHook
          text := some res.text
          hash := some res.hash },
       if res.isGlobal then [Note.warnGlobalTag file] else [])

/-- The page-query pass body: for a recognised graphql template inside a
named export, record each definition under its location key and run
generateQueryName, then push the raw definitions — without the
isStaticQuery / isHook / text / hash fields the static-query passes set. -/
def extractPageQuery (file : String) (t : TaggedTemplate) :
    List Fragment × List Note :=
  match getGraphQLTag t with
  | none => ([], [])
  | some res =>
      (res.defs.map fun d =>
        { name := generateQueryName d.nameValue res.hash file
          locationKey := mkLocationKey t.start d.locStart
          isStaticQuery := none
          isHook := none
          text := none
          hash := none },
       if res.isGlobal then [Note.warnGlobalTag file] else [])

/-- A node the inner traversals visit inside a query attribute value or a
hook call: a tagged template expression or an identifier. -/
inductive AttrNode
  | tte (t : TaggedTemplate)
  | ident (name : String)
deriving DecidableEq

/-- Initializer of a variable declarator. -/
inductive VarInit
  | tte (t : TaggedTemplate)
  | other
deriving DecidableEq

/-- A VariableDeclarator: its id name and its initializer. -/
structure VarDecl where
  name : String
  init : VarInit
deriving DecidableEq

/-- A JSXAttribute: its name and the template / identifier nodes visited
inside its value, in traversal order. -/
structure JsxAttr where
  name : String
  nodes : List AttrNode
deriving DecidableEq

/-- A JSXElement: its opening element name and its attributes. -/
structure JsxElem where
  name : String
  attrs : List JsxAttr
deriving DecidableEq

/-- A CallExpression: its callee name, whether the callee resolves to a
gatsby module binding, and the nodes visited inside the call. -/
structure CallExpr where
  calleeName : String
  fromGatsby : Bool
  nodes : List AttrNode
deriving DecidableEq

/-- An ExportNamedDeclaration: the tagged templates visited inside it. -/
structure ExportDecl where
  ttes : List TaggedTemplate
deriving DecidableEq

/-- A parsed file, as the three traversal passes see it: the JSX elements,
call expressions, named exports and variable declarators of the file, each
in source traversal order. -/
structure Ast where
  elems : List JsxElem
  calls : List CallExpr
  exports : List ExportDecl
  vars : List VarDecl
deriving DecidableEq

/-- Concatenate the fragment lists and the note lists of a list of pass
results, preserving order. -/
def joinPairs (l : List (List Fragment × List Note)) : List Fragment × List Note :=
  l.foldr (fun p q => (p.1 ++ q.1, p.2 ++ q.2)) ([], [])

/-- The whole-file VariableDeclarator search: the tagged-template
initializers of declarators binding the given name (the code extracts from
every matching declarator and sets found when there is at least one; a
declarator whose initializer is not a tagged template never matches). -/
def taggedInits (vars : List VarDecl) (v : String) : List TaggedTemplate :=
  vars.filterMap fun vd =>
    match vd.init with
    | VarInit.tte t => if vd.name = v then some t else none
    | VarInit.other => none

/-- Identifier resolution shared by the component and hook passes: extract
from every matching declarator; when none matches (including a binding
whose initializer is not a tagged template) emit the unknown-variable
warning for this call site. -/
def resolveQueryVariable (file : String) (vars : List VarDecl) (v : String)
    (isHook : Bool) (usageFunction : String) : List Fragment × List Note :=
  let ts := taggedInits vars v
  if ts.isEmpty then ([], [Note.warnUnknownQueryVariable v file usageFunction])
  else joinPairs (ts.map fun t => extractStaticQuery file t isHook)

/-- The inner visitor of the component pass: inline tagged templates are
extracted directly; an identifier other than the graphql tag itself is
resolved through the file's variable declarators. -/
def processComponentNode (file : String) (vars : List VarDecl) :
    AttrNode → List Fragment × List Note
  | AttrNode.tte t => extractStaticQuery file t false
  | AttrNode.ident v =>
      if v = "graphql" then ([], [])
      else resolveQueryVariable file vars v false "<StaticQuery>"

/-- The inner visitor of the hook pass: like the component pass but marking
hooks, and also skipping the useStaticQuery identifier itself. -/
def processHookNode (file : String) (vars : List VarDecl) :
    AttrNode → List Fragment × List Note
  | AttrNode.tte t => extractStaticQuery file t true
  | AttrNode.ident v =>
      if v = "graphql" ∨ v = "useStaticQuery" then ([], [])
      else resolveQueryVariable file vars v true "useStaticQuery"

/-- Pass 1: queries in the query attribute of StaticQuery elements. -/
def componentPass (file : String) (ast : Ast) : List Fragment × List Note :=
  joinPairs <| ast.elems.map fun e =>
    if e.name = "StaticQuery" then
      joinPairs <| e.attrs.map fun a =>
        if a.name = "query" then
          joinPairs <| a.nodes.map (processComponentNode file ast.vars)
        else ([], [])
    else ([], [])

/-- Pass 2: queries in useStaticQuery hook calls (callee must be named
useStaticQuery and reference the gatsby import). -/
def hookPass (file : String) (ast : Ast) : List Fragment × List Note :=
  joinPairs <| ast.calls.map fun c =>
    if c.calleeName = "useStaticQuery" ∧ c.fromGatsby then
      joinPairs <| c.nodes.map (processHookNode file ast.vars)
    else ([], [])

/-- Pass 3: page queries in named exports. -/
def pagePass (file : String) (ast : Ast) : List Fragment × List Note :=
  joinPairs <| ast.exports.map fun ex =>
    joinPairs <| ex.ttes.map (extractPageQuery file)

/-- Membership of a location key in the set of keys already kept. -/
def keyMem (k : String) : List String → Bool
  | [] => false
  | s :: rest => s == k || keyMem k rest

/-- lodash uniqBy on the documentLocations keys: keep the first fragment
for each location key. -/
def dedupeAux (seen : List String) : List Fragment → List Fragment
  | [] => []
  | f :: rest =>
      if keyMem f.locationKey seen then dedupeAux seen rest
      else f :: dedupeAux (f.locationKey :: seen) rest

def dedupe (l : List Fragment) : List Fragment := dedupeAux [] l

/-- findGraphQLTags on a parsed file: run the three passes in this order
and remove duplicate queries by location key. -/
def findTagsInAst (file : String) (ast : Ast) : List Fragment × List Note :=
  let c := componentPass file ast
  let h := hookPass file ast
  let p := pagePass file ast
  (dedupe (c.1 ++ h.1 ++ p.1), c.2 ++ h.2 ++ p.2)

/-- The preprocessing and parse outcomes for one file: the text, the parse
outcome of each preprocessed candidate returned by the preprocessSource
API (none when babel fails on that candidate; the empty list covers both
an empty and an absent preprocessing result), and the parse outcome of the
raw text. -/
structure FileData where
  text : String
  transpiled : List (Option Ast)
  directParse : Option Ast
deriving DecidableEq

/-- The candidate loop of parseToAst: try each preprocessed candidate in
order, reporting the error and dispatching queryExtractionGraphQLError for
each failure, and stop at the first candidate that parses.  Returns the
ast, the notes, and the number of babel parse attempts. -/
def tryCandidates (file : String) : List (Option Ast) → Option Ast × List Note × Nat
  | [] => (none, [], 0)
  | none :: rest =>
      let r := tryCandidates file rest
      (r.1, Note.reportError file :: Note.queryExtractionGraphQLError file :: r.2.1,
       r.2.2 + 1)
  | some ast :: _ => (some ast, [], 1)

/-- parseToAst: when preprocessing produced candidates, run the candidate
loop, and when every candidate failed also report the preprocessed-parse
failure and dispatch one more extraction error, returning a null ast;
when there are no candidates, parse the raw text directly, dispatching
queryExtractionBabelError and reporting on failure. -/
def parseToAst (file : String) (fd : FileData) : Option Ast × List Note × Nat :=
  if fd.transpiled.isEmpty then
    match fd.directParse with
    | some ast => (some ast, [], 1)
    | none =>
        (none, [Note.queryExtractionBabelError file, Note.reportError file], 1)
  else
    let r := tryCandidates file fd.transpiled
    match r.1 with
    | some ast => (some ast, r.2.1, r.2.2)
    | none =>
        (none, r.2.1 ++ [Note.reportParseFailed file,
          Note.queryExtractionGraphQLError file], r.2.2)

/-- findGraphQLTags: parse (possibly via preprocessed candidates) and, when
an ast was produced, run the three extraction passes.  Returns the deduped
fragments, the notes, and the number of babel parse attempts. -/
def findGraphQLTags (file : String) (fd : FileData) :
    List Fragment × List Note × Nat :=
  let pr := parseToAst file fd
  match pr.1 with
  | none => ([], pr.2.1, pr.2.2)
  | some ast =>
      let r := findTagsInAst file ast
      (r.1, pr.2.1 ++ r.2, pr.2.2)

/-- The process-wide cache: the md5 digest of file path plus contents is
modelled as the (path, contents) pair itself (digest collisions are
outside the model); the value is the astDefinitions list stored under that
key. -/
abbrev Cache := List ((String × String) × List Fragment)

def cacheLookup (c : Cache) (k : String × String) : Option (List Fragment) :=
  match c.find? (fun e => e.1 == k) with
  | some e => some e.2
  | none => none

/-- The filesystem as parseFile sees it: file path to file data, none when
the read fails. -/
structure World where
  read : String → Option FileData

/-- text.indexOf of the graphql tag identifier: the substring pre-filter. -/
def containsSub (pat : List Char) : List Char → Bool
  | [] => pat.isEmpty
  | c :: cs => pat.isPrefixOf (c :: cs) || containsSub pat cs

def containsGraphql (text : String) : Bool :=
  containsSub "graphql".toList text.toList

/-- The Document returned by parseFile: its kind is always the Document
kind, so only the definitions list is modelled. -/
structure Document where
  definitions : List Fragment
deriving DecidableEq

/-- Everything observable about one parseFile call: the returned document
(none for null), the cache afterwards, the notes, the number of babel
parse attempts, and the number of findGraphQLTags traversal runs. -/
structure ParseOutcome where
  doc : Option Document
  cache : Cache
  notes : List Note
  parseCalls : Nat
  traversals : Nat
deriving DecidableEq

/-- FileParser.parseFile: read the file (on failure report, dispatch an
extraction error and return null); return null without any parse work when
the text has no graphql substring; otherwise consult the cache under the
(path, contents) key, running findGraphQLTags and storing its definitions
only on a miss; dispatch queryExtractedBabelSuccess exactly when the
definitions list is non-empty, and return the Document when that list is
non-empty, null otherwise. -/
def parseFile (w : World) (c : Cache) (file : String) : ParseOutcome :=
  match w.read file with
  | none =>
      ⟨none, c,
       [Note.reportReadFailed file, Note.queryExtractionGraphQLError file], 0, 0⟩
  | some fd =>
      if containsGraphql fd.text then
        match cacheLookup c (file, fd.text) with
        | some defs =>
            ⟨if defs.isEmpty then none else some ⟨defs⟩, c,
             if defs.isEmpty then [] else [Note.queryExtractedBabelSuccess file],
             0, 0⟩
        | none =>
            let r := findGraphQLTags file fd
            ⟨if r.1.isEmpty then none else some ⟨r.1⟩, ((file, fd.text), r.1) :: c,
             r.2.1 ++ (if r.1.isEmpty then [] else [Note.queryExtractedBabelSuccess file]),
             r.2.2, 1⟩
      else ⟨none, c, [], 0, 0⟩

/-- FileParser.parseFiles: parseFile on every path, collecting the entries
whose document is non-null (the shared cache threads through the batch). -/
def parseFiles (w : World) (c : Cache) :
    List String → List (String × Document) × Cache
  | [] => ([], c)
  | f :: rest =>
      let r := parseFile w c f
      let next := parseFiles w r.cache rest
      (match r.doc with
       | some d => (f, d) :: next.1
       | none => next.1, next.2)

/-- The cache-free reference result of parseFile for one file. -/
def pureParse (w : World) (file : String) : Option Document :=
  match w.read file with
  | none => none
  | some fd =>
      if containsGraphql fd.text then
        let defs := (findGraphQLTags file fd).1
        if defs.isEmpty then none else some ⟨defs⟩
      else none

/-- A cache is coherent with the world when every entry it holds for a
readable file's current contents is the extraction result for that file. -/
def CacheCoherent (w : World) (c : Cache) : Prop :=
  ∀ file fd defs, w.read file = some fd →
    cacheLookup c (file, fd.text) = some defs →
    defs = (findGraphQLTags file fd).1

/-- Classifier for the queryExtractedBabelSuccess dispatch, used to state
that extraction itself never signals success. -/
def isSuccessNote : Note → Bool
  | Note.queryExtractedBabelSuccess _ => true
  | _ => false

/-- The field shape of a fragment produced by the component and hook
passes: name present, isStaticQuery true, and isHook / text / hash set. -/
def staticShape (f : Fragment) : Prop :=
  f.name.isSome = true ∧ f.isStaticQuery = some true ∧ f.isHook.isSome = true ∧
    f.text.isSome = true ∧ f.hash.isSome = true

/-- The field shape of a fragment produced by the page-query pass: name
present but isStaticQuery / isHook / text / hash all absent. -/
def pageShape (f : Fragment) : Prop :=
  f.name.isSome = true ∧ f.isStaticQuery = none ∧ f.isHook = none ∧
    f.text = none ∧ f.hash = none

/-! ## Concrete example data -/

/-- An unnamed graphql definition at offset 2 of its template text. -/
def exDefUnnamed : GqlDefNode := ⟨none, 2⟩

/-- A graphql-tagged template literal at source offset 40. -/
def exTemplateQ : TaggedTemplate :=
  ⟨40, true, false, "\x7b site \x7b siteMetadata \x7b title \x7d \x7d \x7d", "1234",
   [exDefUnnamed]⟩

/-- A file whose only query is a page query in a named export. -/
def exAstPage : Ast := ⟨[], [], [⟨[exTemplateQ]⟩], []⟩

/-- A file whose only query is inline in a useStaticQuery call. -/
def exAstHook : Ast := ⟨[], [⟨"useStaticQuery", true, [AttrNode.tte exTemplateQ]⟩], [], []⟩

/-- A file with two StaticQuery elements whose query attributes both
reference the variable Q, bound once to a tagged template. -/
def exAstTwoSites : Ast :=
  ⟨[⟨"StaticQuery", [⟨"query", [AttrNode.ident "Q"]⟩]⟩,
    ⟨"StaticQuery", [⟨"query", [AttrNode.ident "Q"]⟩]⟩], [], [],
   [⟨"Q", VarInit.tte exTemplateQ⟩]⟩

/-- A world holding one file a.js whose text mentions graphql and whose
raw parse is the page-query ast. -/
def exWorldA : World :=
  ⟨fun f => if f = "a.js" then some ⟨"graphql one", [], some exAstPage⟩ else none⟩

/-- The same file path with different contents. -/
def exWorldB : World :=
  ⟨fun f => if f = "a.js" then some ⟨"graphql two", [], some exAstPage⟩ else none⟩

/-- A world holding one file whose text has no graphql substring. -/
def exWorldPlain : World :=
  ⟨fun f => if f = "plain.js" then some ⟨"no tag here", [], none⟩ else none⟩

/-- The hook fragment extracted from exAstHook in file hook.js. -/
def exHookFrag : Fragment :=
  ⟨some "hookJs1234", "40-2", some true, some true,
   some "\x7b site \x7b siteMetadata \x7b title \x7d \x7d \x7d", some "1234"⟩

/-- The document extracted from a.js in exWorldA: one page-query fragment
with a generated name and no text / kind metadata. -/
def exDocA : Document := ⟨[⟨some "aJs1234", "40-2", none, none, none, none⟩]⟩

/-! ## Helper lemmas: joinPairs -/

theorem joinPairs_cons (p : List Fragment × List Note)
    (l : List (List Fragment × List Note)) :
    joinPairs (p :: l) = (p.1 ++ (joinPairs l).1, p.2 ++ (joinPairs l).2) := rfl

theorem joinPairs_append (l1 l2 : List (List Fragment × List Note)) :
    joinPairs (l1 ++ l2) =
      ((joinPairs l1).1 ++ (joinPairs l2).1, (joinPairs l1).2 ++ (joinPairs l2).2) := by
  induction l1 with
  | nil => simp [joinPairs]
  | cons p l ih => simp [joinPairs_cons, ih]

theorem mem_joinPairs_fst {x : Fragment} {l : List (List Fragment × List Note)} :
    x ∈ (joinPairs l).1 ↔ ∃ p ∈ l, x ∈ p.1 := by
  induction l with
  | nil => simp [joinPairs]
  | cons p l ih => simp [joinPairs_cons, List.mem_append, ih]

theorem mem_joinPairs_snd {n : Note} {l : List (List Fragment × List Note)} :
    n ∈ (joinPairs l).2 ↔ ∃ p ∈ l, n ∈ p.2 := by
  induction l with
  | nil => simp [joinPairs]
  | cons p l ih => simp [joinPairs_cons, List.mem_append, ih]

/-! ## Helper lemmas: dedupe -/

theorem dedupeAux_sublist (seen : List String) (l : List Fragment) :
    (dedupeAux seen l).Sublist l := by
  induction l generalizing seen with
  | nil => simp [dedupeAux]
  | cons f rest ih =>
      rw [dedupeAux]
      by_cases h : keyMem f.locationKey seen = true
      · simp only [h, if_true]
        exact (ih seen).cons f
      · simp only [h, if_false]
        exact (ih (f.locationKey :: seen)).cons₂ f

theorem dedupeAux_filter (k : String) (seen : List String) (l : List Fragment) :
    (dedupeAux seen l).filter (fun f => f.locationKey == k) =
      if keyMem k seen then []
      else (l.filter (fun f => f.locationKey == k)).take 1 := by
  induction l generalizing seen with
  | nil =>
      cases h : keyMem k seen <;> simp [dedupeAux, h]
  | cons f rest ih =>
      rw [dedupeAux]
      cases hm : keyMem f.locationKey seen with
      | true =>
          simp only [if_true, ih]
          by_cases hk : f.locationKey = k
          · subst hk
            simp [hm, List.filter_cons]
          · have hbk : (f.locationKey == k) = false := by simp [hk]
            simp [List.filter_cons, hbk]
      | false =>
          simp only [Bool.false_eq_true, if_false]
          by_cases hk : f.locationKey = k
          · subst hk
            have h1 : keyMem f.locationKey (f.locationKey :: seen) = true := by
              simp [keyMem]
            have hnil : (dedupeAux (f.locationKey :: seen) rest).filter
                (fun g => g.locationKey == f.locationKey) = [] := by
              rw [ih (f.locationKey :: seen), h1]
              simp
            simp [List.filter_cons, hnil, hm]
          · have hbk : (f.locationKey == k) = false := by simp [hk]
            have h2 : keyMem k (f.locationKey :: seen) = keyMem k seen := by
              simp [keyMem, hbk]
            simp [List.filter_cons, hbk, ih, h2]

theorem dedupeAux_keys (seen : List String) (l : List Fragment) :
    ((dedupeAux seen l).map Fragment.locationKey).Nodup ∧
      ∀ x ∈ dedupeAux seen l, keyMem x.locationKey seen = false := by
  induction l generalizing seen with
  | nil => simp [dedupeAux]
  | cons f rest ih =>
      rw [dedupeAux]
      cases hm : keyMem f.locationKey seen with
      | true =>
          simp only [if_true]
          exact ih seen
      | false =>
          simp only [Bool.false_eq_true, if_false]
          obtain ⟨ihn, ihs⟩ := ih (f.locationKey :: seen)
          constructor
          · rw [List.map_cons, List.nodup_cons]
            refine ⟨?_, ihn⟩
            intro hmem
            obtain ⟨x, hx, hkx⟩ := List.mem_map.mp hmem
            have hsx := ihs x hx
            rw [hkx] at hsx
            simp [keyMem] at hsx
          · intro x hx
            rcases List.mem_cons.mp hx with h | h
            · subst h; exact hm
            · have hsx := ihs x h
              simp only [keyMem, Bool.or_eq_false_iff] at hsx
              exact hsx.2

theorem dedupeAux_of_nodup (seen : List String) (m : List Fragment)
    (hn : (m.map Fragment.locationKey).Nodup)
    (hs : ∀ x ∈ m, keyMem x.locationKey seen = false) :
    dedupeAux seen m = m := by
  induction m generalizing seen with
  | nil => simp [dedupeAux]
  | cons f rest ih =>
      rw [dedupeAux]
      have hf : keyMem f.locationKey seen = false := hs f (List.mem_cons_self f rest)
      simp only [hf, Bool.false_eq_true, if_false, List.cons.injEq, true_and]
      rw [List.map_cons, List.nodup_cons] at hn
      apply ih (f.locationKey :: seen) hn.2
      intro x hx
      have hne : f.locationKey ≠ x.locationKey := by
        intro h
        exact hn.1 (h ▸ List.mem_map_of_mem Fragment.locationKey hx)
      simp [keyMem, hne, hs x (List.mem_cons_of_mem f hx)]

theorem dedupe_sublist (l : List Fragment) : (dedupe l).Sublist l :=
  dedupeAux_sublist [] l

theorem dedupe_filter (k : String) (l : List Fragment) :
    (dedupe l).filter (fun f => f.locationKey == k) =
      (l.filter (fun f => f.locationKey == k)).take 1 := by
  have := dedupeAux_filter k [] l
  simpa [dedupe, keyMem] using this

theorem dedupe_keys_nodup (l : List Fragment) :
    ((dedupe l).map Fragment.locationKey).Nodup :=
  (dedupeAux_keys [] l).1

theorem dedupe_idem (l : List Fragment) : dedupe (dedupe l) = dedupe l :=
  dedupeAux_of_nodup [] (dedupe l) (dedupe_keys_nodup l)
    (fun _ _ => rfl)

/-! ## Helper lemmas: extraction never emits the success dispatch -/

theorem extractStaticQuery_no_success (file : String) (t : TaggedTemplate)
    (ih : Bool) : ∀ n ∈ (extractStaticQuery file t ih).2, isSuccessNote n = false := by
  intro n hn
  simp only [extractStaticQuery] at hn
  cases h : getGraphQLTag t with
  | none => rw [h] at hn; simp at hn
  | some res =>
      rw [h] at hn
      by_cases hg : res.isGlobal = true
      · simp [hg] at hn
        rw [hn]; rfl
      · simp [hg] at hn

theorem extractPageQuery_no_success (file : String) (t : TaggedTemplate) :
    ∀ n ∈ (extractPageQuery file t).2, isSuccessNote n = false := by
  intro n hn
  simp only [extractPageQuery] at hn
  cases h : getGraphQLTag t with
  | none => rw [h] at hn; simp at hn
  | some res =>
      rw [h] at hn
      by_cases hg : res.isGlobal = true
      · simp [hg] at hn
        rw [hn]; rfl
      · simp [hg] at hn

theorem resolveQueryVariable_no_success (file : String) (vars : List VarDecl)
    (v : String) (ih : Bool) (u : String) :
    ∀ n ∈ (resolveQueryVariable file vars v ih u).2, isSuccessNote n = false := by
  intro n hn
  simp only [resolveQueryVariable] at hn
  by_cases he : (taggedInits vars v).isEmpty = true
  · simp [he] at hn
    rw [hn]; rfl
  · simp only [he, Bool.false_eq_true, if_false] at hn
    obtain ⟨p, hp, hnp⟩ := mem_joinPairs_snd.mp hn
    obtain ⟨t, _ht, hpt⟩ := List.mem_map.mp hp
    exact extractStaticQuery_no_success file t ih n (hpt ▸ hnp)

theorem processComponentNode_no_success (file : String) (vars : List VarDecl)
    (node : AttrNode) :
    ∀ n ∈ (processComponentNode file vars node).2, isSuccessNote n = false := by
  intro n hn
  cases node with
  | tte t => exact extractStaticQuery_no_success file t false n hn
  | ident v =>
      simp only [processComponentNode] at hn
      by_cases hv : v = "graphql"
      · simp [hv] at hn
      · simp only [hv, if_false] at hn
        exact resolveQueryVariable_no_success file vars v false _ n hn

theorem processHookNode_no_success (file : String) (vars : List VarDecl)
    (node : AttrNode) :
    ∀ n ∈ (processHookNode file vars node).2, isSuccessNote n = false := by
  intro n hn
  cases node with
  | tte t => exact extractStaticQuery_no_success file t true n hn
  | ident v =>
      simp only [processHookNode] at hn
      by_cases hv : v = "graphql" ∨ v = "useStaticQuery"
      · simp [hv] at hn
      · simp only [hv, if_false] at hn
        exact resolveQueryVariable_no_success file vars v true _ n hn

theorem findTagsInAst_no_success (file : String) (ast : Ast) :
    ∀ n ∈ (findTagsInAst file ast).2, isSuccessNote n = false := by
  intro n hn
  simp only [findTagsInAst, List.mem_append] at hn
  rcases hn with (hn | hn) | hn
  · obtain ⟨p, hp, hnp⟩ := mem_joinPairs_snd.mp hn
    obtain ⟨e, _he, hpe⟩ := List.mem_map.mp hp
    subst hpe
    by_cases hname : e.name = "StaticQuery"
    · simp only [hname, if_true] at hnp
      obtain ⟨q, hq, hnq⟩ := mem_joinPairs_snd.mp hnp
      obtain ⟨a, _ha, hqa⟩ := List.mem_map.mp hq
      subst hqa
      by_cases haq : a.name = "query"
      · simp only [haq, if_true] at hnq
        obtain ⟨s, hs, hns⟩ := mem_joinPairs_snd.mp hnq
        obtain ⟨nd, _hnd, hsn⟩ := List.mem_map.mp hs
        exact processComponentNode_no_success file ast.vars nd n (hsn ▸ hns)
      · simp [haq] at hnq
    · simp [hname] at hnp
  · obtain ⟨p, hp, hnp⟩ := mem_joinPairs_snd.mp hn
    obtain ⟨cexp, _hc, hpc⟩ := List.mem_map.mp hp
    subst hpc
    by_cases hcall : cexp.calleeName = "useStaticQuery" ∧ cexp.fromGatsby = true
    · rw [if_pos hcall] at hnp
      obtain ⟨s, hs, hns⟩ := mem_joinPairs_snd.mp hnp
      obtain ⟨nd, _hnd, hsn⟩ := List.mem_map.mp hs
      exact processHookNode_no_success file ast.vars nd n (hsn ▸ hns)
    · simp [hcall] at hnp
  · obtain ⟨p, hp, hnp⟩ := mem_joinPairs_snd.mp hn
    obtain ⟨ex, _he, hpe⟩ := List.mem_map.mp hp
    subst hpe
    obtain ⟨q, hq, hnq⟩ := mem_joinPairs_snd.mp hnp
    obtain ⟨t, _ht, hqt⟩ := List.mem_map.mp hq
    exact extractPageQuery_no_success file t n (hqt ▸ hnq)

theorem tryCandidates_no_success (file : String) (l : List (Option Ast)) :
    ∀ n ∈ (tryCandidates file l).2.1, isSuccessNote n = false := by
  induction l with
  | nil => intro n hn; simp [tryCandidates] at hn
  | cons c rest ih =>
      intro n hn
      cases c with
      | none =>
          simp only [tryCandidates, List.mem_cons] at hn
          rcases hn with h | h | h
          · rw [h]; rfl
          · rw [h]; rfl
          · exact ih n h
      | some a => simp [tryCandidates] at hn

theorem parseToAst_no_success (file : String) (fd : FileData) :
    ∀ n ∈ (parseToAst file fd).2.1, isSuccessNote n = false := by
  intro n hn
  simp only [parseToAst] at hn
  by_cases he : fd.transpiled.isEmpty = true
  · rw [if_pos he] at hn
    cases hd : fd.directParse with
    | some a => rw [hd] at hn; simp at hn
    | none =>
        rw [hd] at hn
        simp only [List.mem_cons, List.not_mem_nil, or_false] at hn
        rcases hn with h | h <;> (rw [h]; rfl)
  · rw [if_neg he] at hn
    cases hr : (tryCandidates file fd.transpiled).1 with
    | some a =>
        rw [hr] at hn
        exact tryCandidates_no_success file fd.transpiled n hn
    | none =>
        rw [hr] at hn
        simp only [List.mem_append, List.mem_cons, List.not_mem_nil, or_false] at hn
        rcases hn with h | h | h
        · exact tryCandidates_no_success file fd.transpiled n h
        · rw [h]; rfl
        · rw [h]; rfl

theorem findGraphQLTags_no_success (file : String) (fd : FileData) :
    ∀ n ∈ (findGraphQLTags file fd).2.1, isSuccessNote n = false := by
  intro n hn
  simp only [findGraphQLTags] at hn
  cases hr : (parseToAst file fd).1 with
  | none =>
      rw [hr] at hn
      exact parseToAst_no_success file fd n hn
  | some ast =>
      rw [hr] at hn
      rcases List.mem_append.mp hn with h | h
      · exact parseToAst_no_success file fd n h
      · exact findTagsInAst_no_success file ast n h

/-! ## Helper lemmas: parseToAst candidate loop -/

theorem tryCandidates_fst (file : String) (l : List (Option Ast)) :
    (tryCandidates file l).1 = l.findSome? id := by
  induction l with
  | nil => rfl
  | cons c rest ih =>
      cases c with
      | none => simpa [tryCandidates, List.findSome?] using ih
      | some a => simp [tryCandidates, List.findSome?]

theorem tryCandidates_count (file : String) (l : List (Option Ast)) :
    (tryCandidates file l).2.1.count (Note.queryExtractionGraphQLError file) =
      (l.takeWhile (fun c => c.isNone)).length := by
  induction l with
  | nil => rfl
  | cons c rest ih =>
      cases c with
      | none =>
          simp [tryCandidates, List.takeWhile_cons, List.count_cons, ih]
      | some a =>
          simp [tryCandidates, List.takeWhile_cons]

/-! ## Helper lemmas: cache -/

theorem cacheLookup_cons_self (k : String × String) (v : List Fragment)
    (c : Cache) : cacheLookup ((k, v) :: c) k = some v := by
  simp [cacheLookup, List.find?]

theorem cacheLookup_cons_ne (k k' : String × String) (v : List Fragment)
    (c : Cache) (h : k ≠ k') : cacheLookup ((k, v) :: c) k' = cacheLookup c k' := by
  have : (k == k') = false := by simp [h]
  simp [cacheLookup, List.find?, this]

/-! ## Helper lemmas: parseFile and the cache -/

theorem parseFile_twice (w : World) (c : Cache) (file : String) :
    (parseFile w (parseFile w c file).cache file).doc = (parseFile w c file).doc ∧
    (parseFile w (parseFile w c file).cache file).parseCalls = 0 ∧
    (parseFile w (parseFile w c file).cache file).traversals = 0 := by
  cases hr : w.read file with
  | none => simp [parseFile, hr]
  | some fd =>
      cases hg : containsGraphql fd.text with
      | false => simp [parseFile, hr, hg]
      | true =>
          cases hl : cacheLookup c (file, fd.text) with
          | some defs => simp [parseFile, hr, hg, hl]
          | none =>
              have hself := cacheLookup_cons_self (file, fd.text)
                ((findGraphQLTags file fd).1) c
              simp [parseFile, hr, hg, hl, hself]

theorem parseFile_doc_pure (w : World) (c : Cache) (file : String)
    (hc : CacheCoherent w c) : (parseFile w c file).doc = pureParse w file := by
  cases hr : w.read file with
  | none => simp [parseFile, pureParse, hr]
  | some fd =>
      cases hg : containsGraphql fd.text with
      | false => simp [parseFile, pureParse, hr, hg]
      | true =>
          cases hl : cacheLookup c (file, fd.text) with
          | none => simp [parseFile, pureParse, hr, hg, hl]
          | some defs =>
              have hd := hc file fd defs hr hl
              simp [parseFile, pureParse, hr, hg, hl, hd]

theorem parseFile_coherent (w : World) (c : Cache) (file : String)
    (hc : CacheCoherent w c) : CacheCoherent w (parseFile w c file).cache := by
  cases hr : w.read file with
  | none => simpa [parseFile, hr] using hc
  | some fd =>
      cases hg : containsGraphql fd.text with
      | false => simpa [parseFile, hr, hg] using hc
      | true =>
          cases hl : cacheLookup c (file, fd.text) with
          | some defs => simpa [parseFile, hr, hg, hl] using hc
          | none =>
              intro file' fd' defs' hr' hl'
              have hcache : (parseFile w c file).cache =
                  ((file, fd.text), (findGraphQLTags file fd).1) :: c := by
                simp [parseFile, hr, hg, hl]
              rw [hcache] at hl'
              by_cases hk : ((file, fd.text) : String × String) = (file', fd'.text)
              · rw [Prod.mk.injEq] at hk
                obtain ⟨hf, ht⟩ := hk
                subst hf
                rw [hr] at hr'
                obtain rfl : fd = fd' := Option.some.inj hr'
                rw [← ht, cacheLookup_cons_self] at hl'
                exact (Option.some.inj hl').symm
              · rw [cacheLookup_cons_ne _ _ _ _ hk] at hl'
                exact hc file' fd' defs' hr' hl'

theorem parseFiles_mem (w : World) (files : List String) (c : Cache)
    (hc : CacheCoherent w c) (f : String) (d : Document) :
    (f, d) ∈ (parseFiles w c files).1 ↔ f ∈ files ∧ pureParse w f = some d := by
  induction files generalizing c with
  | nil => simp [parseFiles]
  | cons g rest ih =>
      have hc2 : CacheCoherent w (parseFile w c g).cache :=
        parseFile_coherent w c g hc
      have hdoc : (parseFile w c g).doc = pureParse w g :=
        parseFile_doc_pure w c g hc
      rw [parseFiles]
      cases hdg : (parseFile w c g).doc with
      | none =>
          simp only [hdg]
          rw [ih _ hc2]
          constructor
          · rintro ⟨hm, hp⟩
            exact ⟨List.mem_cons_of_mem g hm, hp⟩
          · rintro ⟨hm, hp⟩
            rcases List.mem_cons.mp hm with rfl | hm
            · rw [hdg] at hdoc
              rw [← hdoc] at hp
              exact absurd hp (by simp)
            · exact ⟨hm, hp⟩
      | some d' =>
          simp only [hdg, List.mem_cons]
          rw [ih _ hc2]
          constructor
          · rintro (heq | ⟨hm, hp⟩)
            · obtain ⟨rfl, rfl⟩ := Prod.mk.inj heq
              refine ⟨Or.inl rfl, ?_⟩
              rw [← hdoc, hdg]
            · exact ⟨Or.inr hm, hp⟩
          · rintro ⟨hm, hp⟩
            rcases hm with rfl | hm
            · left
              rw [← hdoc, hdg] at hp
              obtain rfl := Option.some.inj hp
              rfl
            · right
              exact ⟨hm, hp⟩

/-! ## Helper lemmas: fragment field shapes -/

theorem generateQueryName_isSome (n : Option String) (h f : String) :
    (generateQueryName n h f).isSome = true := by
  cases n with
  | none => rfl
  | some v => by_cases hv : v = "" <;> simp [generateQueryName, hv]

theorem extractStaticQuery_shape (file : String) (t : TaggedTemplate)
    (ih : Bool) : ∀ f ∈ (extractStaticQuery file t ih).1, staticShape f := by
  intro f hf
  simp only [extractStaticQuery] at hf
  cases h : getGraphQLTag t with
  | none => rw [h] at hf; simp at hf
  | some res =>
      rw [h] at hf
      obtain ⟨d, _hd, rfl⟩ := List.mem_map.mp hf
      exact ⟨generateQueryName_isSome _ _ _, rfl, rfl, rfl, rfl⟩

theorem extractPageQuery_shape (file : String) (t : TaggedTemplate) :
    ∀ f ∈ (extractPageQuery file t).1, pageShape f := by
  intro f hf
  simp only [extractPageQuery] at hf
  cases h : getGraphQLTag t with
  | none => rw [h] at hf; simp at hf
  | some res =>
      rw [h] at hf
      obtain ⟨d, _hd, rfl⟩ := List.mem_map.mp hf
      exact ⟨generateQueryName_isSome _ _ _, rfl, rfl, rfl, rfl⟩

theorem resolveQueryVariable_shape (file : String) (vars : List VarDecl)
    (v : String) (ih : Bool) (u : String) :
    ∀ f ∈ (resolveQueryVariable file vars v ih u).1, staticShape f := by
  intro f hf
  simp only [resolveQueryVariable] at hf
  by_cases hempty : (taggedInits vars v).isEmpty = true
  · simp [hempty] at hf
  · simp only [hempty, Bool.false_eq_true, if_false] at hf
    obtain ⟨p, hp, hfp⟩ := mem_joinPairs_fst.mp hf
    obtain ⟨t, _ht, rfl⟩ := List.mem_map.mp hp
    exact extractStaticQuery_shape file t ih f hfp

theorem processComponentNode_shape (file : String) (vars : List VarDecl)
    (node : AttrNode) :
    ∀ f ∈ (processComponentNode file vars node).1, staticShape f := by
  intro f hf
  cases node with
  | tte t => exact extractStaticQuery_shape file t false f hf
  | ident v =>
      simp only [processComponentNode] at hf
      by_cases hv : v = "graphql"
      · simp [hv] at hf
      · simp only [hv, if_false] at hf
        exact resolveQueryVariable_shape file vars v false _ f hf

theorem processHookNode_shape (file : String) (vars : List VarDecl)
    (node : AttrNode) :
    ∀ f ∈ (processHookNode file vars node).1, staticShape f := by
  intro f hf
  cases node with
  | tte t => exact extractStaticQuery_shape file t true f hf
  | ident v =>
      simp only [processHookNode] at hf
      by_cases hv : v = "graphql" ∨ v = "useStaticQuery"
      · simp [hv] at hf
      · simp only [hv, if_false] at hf
        exact resolveQueryVariable_shape file vars v true _ f hf

theorem componentPass_shape (file : String) (ast : Ast) :
    ∀ f ∈ (componentPass file ast).1, staticShape f := by
  intro f hf
  obtain ⟨p, hp, hfp⟩ := mem_joinPairs_fst.mp hf
  obtain ⟨e, _he, hpe⟩ := List.mem_map.mp hp
  subst hpe
  by_cases hname : e.name = "StaticQuery"
  · simp only [hname, if_true] at hfp
    obtain ⟨q, hq, hfq⟩ := mem_joinPairs_fst.mp hfp
    obtain ⟨a, _ha, hqa⟩ := List.mem_map.mp hq
    subst hqa
    by_cases haq : a.name = "query"
    · simp only [haq, if_true] at hfq
      obtain ⟨s, hs, hfs⟩ := mem_joinPairs_fst.mp hfq
      obtain ⟨nd, _hnd, hsn⟩ := List.mem_map.mp hs
      exact processComponentNode_shape file ast.vars nd f (hsn ▸ hfs)
    · simp [haq] at hfq
  · simp [hname] at hfp

theorem hookPass_shape (file : String) (ast : Ast) :
    ∀ f ∈ (hookPass file ast).1, staticShape f := by
  intro f hf
  obtain ⟨p, hp, hfp⟩ := mem_joinPairs_fst.mp hf
  obtain ⟨cexp, _hc, hpc⟩ := List.mem_map.mp hp
  subst hpc
  by_cases hcall : cexp.calleeName = "useStaticQuery" ∧ cexp.fromGatsby = true
  · rw [if_pos hcall] at hfp
    obtain ⟨s, hs, hfs⟩ := mem_joinPairs_fst.mp hfp
    obtain ⟨nd, _hnd, hsn⟩ := List.mem_map.mp hs
    exact processHookNode_shape file ast.vars nd f (hsn ▸ hfs)
  · simp [hcall] at hfp

theorem pagePass_shape (file : String) (ast : Ast) :
    ∀ f ∈ (pagePass file ast).1, pageShape f := by
  intro f hf
  obtain ⟨p, hp, hfp⟩ := mem_joinPairs_fst.mp hf
  obtain ⟨ex, _he, hpe⟩ := List.mem_map.mp hp
  subst hpe
  obtain ⟨q, hq, hfq⟩ := mem_joinPairs_fst.mp hfp
  obtain ⟨t, _ht, hqt⟩ := List.mem_map.mp hq
  exact extractPageQuery_shape file t f (hqt ▸ hfq)

/-! ## Helper lemmas: membership in componentPass and hookPass -/

theorem componentPass_mem_fst (file : String) (ast : Ast) (e : JsxElem)
    (a : JsxAttr) (node : AttrNode) (f : Fragment)
    (he : e ∈ ast.elems) (hen : e.name = "StaticQuery")
    (ha : a ∈ e.attrs) (han : a.name = "query") (hnode : node ∈ a.nodes)
    (hf : f ∈ (processComponentNode file ast.vars node).1) :
    f ∈ (componentPass file ast).1 := by
  apply mem_joinPairs_fst.mpr
  refine ⟨_, List.mem_map_of_mem _ he, ?_⟩
  simp only [hen, eq_self_iff_true, if_true]
  apply mem_joinPairs_fst.mpr
  refine ⟨_, List.mem_map_of_mem _ ha, ?_⟩
  simp only [han, eq_self_iff_true, if_true]
  apply mem_joinPairs_fst.mpr
  exact ⟨_, List.mem_map_of_mem _ hnode, hf⟩

theorem componentPass_mem_snd (file : String) (ast : Ast) (e : JsxElem)
    (a : JsxAttr) (node : AttrNode) (n : Note)
    (he : e ∈ ast.elems) (hen : e.name = "StaticQuery")
    (ha : a ∈ e.attrs) (han : a.name = "query") (hnode : node ∈ a.nodes)
    (hn : n ∈ (processComponentNode file ast.vars node).2) :
    n ∈ (componentPass file ast).2 := by
  apply mem_joinPairs_snd.mpr
  refine ⟨_, List.mem_map_of_mem _ he, ?_⟩
  simp only [hen, eq_self_iff_true, if_true]
  apply mem_joinPairs_snd.mpr
  refine ⟨_, List.mem_map_of_mem _ ha, ?_⟩
  simp only [han, eq_self_iff_true, if_true]
  apply mem_joinPairs_snd.mpr
  exact ⟨_, List.mem_map_of_mem _ hnode, hn⟩

theorem hookPass_mem_snd (file : String) (ast : Ast) (cexp : CallExpr)
    (node : AttrNode) (n : Note)
    (hc : cexp ∈ ast.calls)
    (hcn : cexp.calleeName = "useStaticQuery" ∧ cexp.fromGatsby = true)
    (hnode : node ∈ cexp.nodes)
    (hn : n ∈ (processHookNode file ast.vars node).2) :
    n ∈ (hookPass file ast).2 := by
  apply mem_joinPairs_snd.mpr
  refine ⟨_, List.mem_map_of_mem _ hc, ?_⟩
  rw [if_pos hcn]
  apply mem_joinPairs_snd.mpr
  exact ⟨_, List.mem_map_of_mem _ hnode, hn⟩

/-! ## Claim theorems -/

/-- C8: dedupe (uniqBy on location keys) is stable and idempotent: the
output is a sublist of the input (order preserved), its location keys are
pairwise distinct, for every key the survivor is the first-encountered
fragment with that key (the filter by any key equals the first element of
the input's filter), and re-running dedupe is a no-op. -/
theorem dedupe_stable_idempotent (l : List Fragment) :
    (dedupe l).Sublist l ∧
    ((dedupe l).map Fragment.locationKey).Nodup ∧
    (∀ k : String, (dedupe l).filter (fun f => f.locationKey == k) =
      (l.filter (fun f => f.locationKey == k)).take 1) ∧
    dedupe (dedupe l) = dedupe l :=
  ⟨dedupe_sublist l, dedupe_keys_nodup l, fun k => dedupe_filter k l,
   dedupe_idem l⟩

/-- C7: generateQueryName keeps an author-given name verbatim (a graphql
Name node's value is lexically non-empty, which is what the truthiness
check tests) and otherwise generates camelCase of the file path followed by
the fragment's content hash; being a pure function of name, hash and file,
the generated name is the same across independent runs on the same file
path and fragment text. -/
theorem generateQueryName_spec (nameValue : Option String) (hash file : String) :
    (∀ s, nameValue = some s → s ≠ "" →
      generateQueryName nameValue hash file = some s) ∧
    (nameValue = none →
      generateQueryName nameValue hash file = some (camelCase file ++ hash)) := by
  constructor
  · rintro s rfl hs
    simp [generateQueryName, hs]
  · rintro rfl
    rfl

/-- Witness for C7 at a concrete named and unnamed definition. -/
theorem generateQueryName_spec_witness :
    generateQueryName (some "AuthorName") "h7" "src/pages/c7.js" = some "AuthorName" ∧
    generateQueryName none "h7" "src/pages/c7.js" =
      some (camelCase "src/pages/c7.js" ++ "h7") :=
  ⟨(generateQueryName_spec (some "AuthorName") "h7" "src/pages/c7.js").1
      "AuthorName" rfl (by decide),
   (generateQueryName_spec none "h7" "src/pages/c7.js").2 rfl⟩

/-- C4: when the file's text has no occurrence of the graphql substring,
parseFile returns null with the cache untouched, no notes, no babel parse
attempt and no traversal run. -/
theorem parseFile_no_tag_substring (w : World) (c : Cache) (file : String)
    (fd : FileData) (hr : w.read file = some fd)
    (hg : containsGraphql fd.text = false) :
    parseFile w c file = ⟨none, c, [], 0, 0⟩ := by
  simp [parseFile, hr, hg]

/-- Witness for C4 on a concrete file without the substring. -/
theorem parseFile_no_tag_substring_witness :
    exWorldPlain.read "plain.js" = some ⟨"no tag here", [], none⟩ ∧
    containsGraphql "no tag here" = false ∧
    parseFile exWorldPlain [] "plain.js" = ⟨none, [], [], 0, 0⟩ :=
  ⟨by decide, by decide,
   parseFile_no_tag_substring exWorldPlain [] "plain.js" ⟨"no tag here", [], none⟩
     (by decide) (by decide)⟩

/-- C2: a returned Document is never empty (empty extraction yields null),
and the queryExtractedBabelSuccess dispatch for the file fires exactly when
the returned document is non-null. -/
theorem parseFile_nonempty_document (w : World) (c : Cache) (file : String) :
    (∀ d, (parseFile w c file).doc = some d → d.definitions ≠ []) ∧
    (Note.queryExtractedBabelSuccess file ∈ (parseFile w c file).notes ↔
      (parseFile w c file).doc ≠ none) := by
  cases hr : w.read file with
  | none =>
      constructor
      · intro d hd
        simp [parseFile, hr] at hd
      · simp [parseFile, hr]
  | some fd =>
      cases hg : containsGraphql fd.text with
      | false =>
          constructor
          · intro d hd
            simp [parseFile, hr, hg] at hd
          · simp [parseFile, hr, hg]
      | true =>
          cases hl : cacheLookup c (file, fd.text) with
          | some defs =>
              cases he : defs.isEmpty with
              | true =>
                  constructor
                  · intro d hd
                    simp [parseFile, hr, hg, hl, he] at hd
                  · simp [parseFile, hr, hg, hl, he]
              | false =>
                  constructor
                  · intro d hd
                    simp [parseFile, hr, hg, hl, he] at hd
                    rw [← hd]
                    exact List.isEmpty_eq_false.mp he
                  · simp [parseFile, hr, hg, hl, he]
          | none =>
              have hns : Note.queryExtractedBabelSuccess file ∉
                  (findGraphQLTags file fd).2.1 := by
                intro hmem
                have hfalse := findGraphQLTags_no_success file fd _ hmem
                simp [isSuccessNote] at hfalse
              cases he : (findGraphQLTags file fd).1.isEmpty with
              | true =>
                  constructor
                  · intro d hd
                    simp [parseFile, hr, hg, hl, he] at hd
                  · simp [parseFile, hr, hg, hl, he, hns]
              | false =>
                  constructor
                  · intro d hd
                    simp [parseFile, hr, hg, hl, he] at hd
                    rw [← hd]
                    exact List.isEmpty_eq_false.mp he
                  · simp [parseFile, hr, hg, hl, he]

/-- Witness for C2 on a concrete extraction producing one fragment. -/
theorem parseFile_nonempty_document_witness :
    (parseFile exWorldA [] "a.js").doc = some exDocA ∧
    exDocA.definitions ≠ [] ∧
    (Note.queryExtractedBabelSuccess "a.js" ∈ (parseFile exWorldA [] "a.js").notes ↔
      (parseFile exWorldA [] "a.js").doc ≠ none) :=
  ⟨by decide,
   (parseFile_nonempty_document exWorldA [] "a.js").1 exDocA (by decide),
   (parseFile_nonempty_document exWorldA [] "a.js").2⟩

/-- C3: parsing the same file again with unchanged path and content is
answered from the cache — the second call performs no babel parse and no
traversal and returns a structurally identical document — while a change
of content changes the (path, contents) cache key, so extraction runs the
traversal again. -/
theorem parseFile_cache_behavior :
    (∀ (w : World) (c : Cache) (file : String),
      (parseFile w (parseFile w c file).cache file).doc = (parseFile w c file).doc ∧
      (parseFile w (parseFile w c file).cache file).parseCalls = 0 ∧
      (parseFile w (parseFile w c file).cache file).traversals = 0) ∧
    (∀ (w1 w2 : World) (file : String) (fd1 fd2 : FileData),
      w1.read file = some fd1 → w2.read file = some fd2 →
      fd1.text ≠ fd2.text → containsGraphql fd2.text = true →
      ((file, fd1.text) : String × String) ≠ (file, fd2.text) ∧
      (parseFile w2 (parseFile w1 [] file).cache file).traversals = 1) := by
  constructor
  · exact parseFile_twice
  · intro w1 w2 file fd1 fd2 hr1 hr2 ht hg2
    have hkey : ((file, fd1.text) : String × String) ≠ (file, fd2.text) := by
      intro h
      exact ht (Prod.mk.inj h).2
    refine ⟨hkey, ?_⟩
    cases hg1 : containsGraphql fd1.text with
    | false =>
        have hcache : (parseFile w1 [] file).cache = [] := by
          simp [parseFile, hr1, hg1]
        rw [hcache]
        simp [parseFile, hr2, hg2, cacheLookup]
    | true =>
        have hcache : (parseFile w1 [] file).cache =
            [((file, fd1.text), (findGraphQLTags file fd1).1)] := by
          simp [parseFile, hr1, hg1, cacheLookup]
        rw [hcache]
        have hmiss : cacheLookup [((file, fd1.text), (findGraphQLTags file fd1).1)]
            (file, fd2.text) = none := by
          rw [cacheLookup_cons_ne _ _ _ _ hkey]
          rfl
        simp [parseFile, hr2, hg2, hmiss]

/-- Witness for C3 on a concrete file parsed under two contents. -/
theorem parseFile_cache_behavior_witness :
    exWorldA.read "a.js" = some ⟨"graphql one", [], some exAstPage⟩ ∧
    exWorldB.read "a.js" = some ⟨"graphql two", [], some exAstPage⟩ ∧
    ("graphql one" : String) ≠ "graphql two" ∧
    containsGraphql "graphql two" = true ∧
    ((("a.js", "graphql one") : String × String) ≠ ("a.js", "graphql two") ∧
      (parseFile exWorldB (parseFile exWorldA [] "a.js").cache "a.js").traversals = 1) :=
  ⟨by decide, by decide, by decide, by decide,
   parseFile_cache_behavior.2 exWorldA exWorldB "a.js"
     ⟨"graphql one", [], some exAstPage⟩ ⟨"graphql two", [], some exAstPage⟩
     (by decide) (by decide) (by decide) (by decide)⟩

/-- C6 counterexample: with candidates [failing, parsing] the second
candidate's AST is returned, yet the extraction-error dispatch was already
emitted for the first failing candidate — refuting "emitted precisely when
all candidates fail to parse". -/
theorem parseToAst_error_note_despite_success :
    (parseToAst "c6.js" ⟨"graphql x", [none, some exAstPage], none⟩).1 =
      some exAstPage ∧
    Note.queryExtractionGraphQLError "c6.js" ∈
      (parseToAst "c6.js" ⟨"graphql x", [none, some exAstPage], none⟩).2.1 := by
  constructor
  · decide
  · decide

/-- C6 amended: when candidates exist, parseToAst returns the AST of the
first candidate that parses; the result is null exactly when all
candidates fail; and a parse-failure report with the extraction-error
dispatch is emitted once per failing candidate tried before the first
success, plus one final failure dispatch when every candidate failed (in
which case the file is skipped with a null AST). -/
theorem parseToAst_candidates_spec (file : String) (fd : FileData)
    (hne : fd.transpiled ≠ []) :
    (parseToAst file fd).1 = fd.transpiled.findSome? id ∧
    ((parseToAst file fd).1 = none ↔ ∀ cand ∈ fd.transpiled, cand = none) ∧
    (parseToAst file fd).2.1.count (Note.queryExtractionGraphQLError file) =
      (fd.transpiled.takeWhile (fun cand => cand.isNone)).length +
        (if (parseToAst file fd).1 = none then 1 else 0) := by
  have he : fd.transpiled.isEmpty = false := by
    simpa [List.isEmpty_eq_false] using hne
  cases htc : (tryCandidates file fd.transpiled).1 with
  | some a =>
      have hp : parseToAst file fd =
          (some a, (tryCandidates file fd.transpiled).2.1,
            (tryCandidates file fd.transpiled).2.2) := by
        simp [parseToAst, he, htc]
      rw [hp]
      refine ⟨by rw [← tryCandidates_fst, htc], ?_, ?_⟩
      · simp only []
        constructor
        · intro h
          exact absurd h (by simp)
        · intro hall
          have : fd.transpiled.findSome? id = none :=
            List.findSome?_eq_none_iff.mpr hall
          rw [← tryCandidates_fst file fd.transpiled, htc] at this
          exact this
      · simp only [tryCandidates_count]
        simp
  | none =>
      have hp : parseToAst file fd =
          (none, (tryCandidates file fd.transpiled).2.1 ++
            [Note.reportParseFailed file, Note.queryExtractionGraphQLError file],
            (tryCandidates file fd.transpiled).2.2) := by
        simp [parseToAst, he, htc]
      rw [hp]
      refine ⟨by rw [← tryCandidates_fst, htc], ?_, ?_⟩
      · simp only [true_iff]
        intro cand hcand
        have hnone : fd.transpiled.findSome? id = none := by
          rw [← tryCandidates_fst file fd.transpiled, htc]
        exact List.findSome?_eq_none_iff.mp hnone cand hcand
      · simp [List.count_append, tryCandidates_count, List.count_cons]

/-- Witness for the amended C6 when every candidate fails. -/
theorem parseToAst_candidates_spec_witness :
    (([none, none] : List (Option Ast)) ≠ []) ∧
    ((parseToAst "w6.js" ⟨"graphql y", [none, none], none⟩).1 =
        ([none, none] : List (Option Ast)).findSome? id ∧
      ((parseToAst "w6.js" ⟨"graphql y", [none, none], none⟩).1 = none ↔
        ∀ cand ∈ ([none, none] : List (Option Ast)), cand = none) ∧
      (parseToAst "w6.js" ⟨"graphql y", [none, none], none⟩).2.1.count
          (Note.queryExtractionGraphQLError "w6.js") =
        (([none, none] : List (Option Ast)).takeWhile
            (fun cand => cand.isNone)).length +
          (if (parseToAst "w6.js" ⟨"graphql y", [none, none], none⟩).1 = none
            then 1 else 0)) :=
  ⟨by decide,
   parseToAst_candidates_spec "w6.js" ⟨"graphql y", [none, none], none⟩ (by decide)⟩

/-- C1 counterexample: the page-query pass pushes the raw graphql
definitions, so the single fragment extracted from a named-export page
query exposes neither sourceText nor kind metadata — refuting the claim
that every fragment, including page-pass ones, exposes them. -/
theorem pageQuery_fragment_missing_metadata :
    ¬ (∀ f ∈ (findTagsInAst "c1.js" exAstPage).1,
        f.text.isSome = true ∧ f.isStaticQuery.isSome = true) := by decide

/-- C1 amended: every returned fragment carries a name, fragments from the
component and hook passes carry the kind flags (isStaticQuery, isHook),
sourceText and hash, and page-pass fragments carry a name and location key
but none of that metadata. -/
theorem findTagsInAst_fragment_shape (file : String) (ast : Ast) :
    (∀ f ∈ (componentPass file ast).1, staticShape f) ∧
    (∀ f ∈ (hookPass file ast).1, staticShape f) ∧
    (∀ f ∈ (pagePass file ast).1, pageShape f) ∧
    (∀ f ∈ (findTagsInAst file ast).1, staticShape f ∨ pageShape f) := by
  refine ⟨componentPass_shape file ast, hookPass_shape file ast,
    pagePass_shape file ast, ?_⟩
  intro f hf
  simp only [findTagsInAst] at hf
  have hmem := (dedupe_sublist _).subset hf
  rcases List.mem_append.mp hmem with hm | hm
  · rcases List.mem_append.mp hm with hm2 | hm2
    · exact Or.inl (componentPass_shape file ast f hm2)
    · exact Or.inl (hookPass_shape file ast f hm2)
  · exact Or.inr (pagePass_shape file ast f hm)

/-- Witness for the amended C1 at a concrete hook-query fragment. -/
theorem findTagsInAst_fragment_shape_witness :
    exHookFrag ∈ (findTagsInAst "hook.js" exAstHook).1 ∧
    (staticShape exHookFrag ∨ pageShape exHookFrag) :=
  ⟨by decide,
   (findTagsInAst_fragment_shape "hook.js" exAstHook).2.2.2 exHookFrag (by decide)⟩

/-- C5: an identifier passed as a query source that cannot be traced to a
variable declarator initialized to a tagged template (including a binding
whose initializer is not a tagged template, since such declarators never
match) is non-fatal: for both the StaticQuery element form and the
useStaticQuery hook form, a warning naming the variable, the file, and the
calling construct is emitted, and the fragments of the file are exactly
those of the same file without that identifier call site. -/
theorem unresolved_variable_nonfatal :
    (∀ (file v : String) (ast : Ast) (es1 es2 : List JsxElem)
      (as1 as2 : List JsxAttr) (ns1 ns2 : List AttrNode),
      ast.elems = es1 ++ ⟨"StaticQuery",
        as1 ++ ⟨"query", ns1 ++ AttrNode.ident v :: ns2⟩ :: as2⟩ :: es2 →
      v ≠ "graphql" → taggedInits ast.vars v = [] →
      Note.warnUnknownQueryVariable v file "<StaticQuery>" ∈
          (findTagsInAst file ast).2 ∧
        (findTagsInAst file ast).1 =
          (findTagsInAst file
            { elems := es1 ++ ⟨"StaticQuery",
                as1 ++ ⟨"query", ns1 ++ ns2⟩ :: as2⟩ :: es2,
              calls := ast.calls, exports := ast.exports,
              vars := ast.vars }).1) ∧
    (∀ (file v : String) (ast : Ast) (cs1 cs2 : List CallExpr)
      (ns1 ns2 : List AttrNode),
      ast.calls = cs1 ++ ⟨"useStaticQuery", true,
        ns1 ++ AttrNode.ident v :: ns2⟩ :: cs2 →
      v ≠ "graphql" → v ≠ "useStaticQuery" → taggedInits ast.vars v = [] →
      Note.warnUnknownQueryVariable v file "useStaticQuery" ∈
          (findTagsInAst file ast).2 ∧
        (findTagsInAst file ast).1 =
          (findTagsInAst file
            { elems := ast.elems,
              calls := cs1 ++ ⟨"useStaticQuery", true, ns1 ++ ns2⟩ :: cs2,
              exports := ast.exports, vars := ast.vars }).1) := by
  constructor
  · intro file v ast es1 es2 as1 as2 ns1 ns2 helems hv hmiss
    have hpcn : processComponentNode file ast.vars (AttrNode.ident v) =
        ([], [Note.warnUnknownQueryVariable v file "<StaticQuery>"]) := by
      simp [processComponentNode, hv, resolveQueryVariable, hmiss]
    constructor
    · have hwarn : Note.warnUnknownQueryVariable v file "<StaticQuery>" ∈
          (componentPass file ast).2 := by
        apply componentPass_mem_snd file ast _ _ (AttrNode.ident v)
        · rw [helems]
          exact List.mem_append_right _ (List.mem_cons_self _ _)
        · rfl
        · exact List.mem_append_right _ (List.mem_cons_self _ _)
        · rfl
        · exact List.mem_append_right _ (List.mem_cons_self _ _)
        · rw [hpcn]
          exact List.mem_singleton.mpr rfl
      simp only [findTagsInAst, List.mem_append]
      exact Or.inl (Or.inl hwarn)
    · have hcomp : (componentPass file ast).1 =
          (componentPass file
            { elems := es1 ++ ⟨"StaticQuery",
                as1 ++ ⟨"query", ns1 ++ ns2⟩ :: as2⟩ :: es2,
              calls := ast.calls, exports := ast.exports,
              vars := ast.vars }).1 := by
        simp only [componentPass, helems]
        simp [List.map_append, joinPairs_append, joinPairs_cons, hpcn]
      simp only [findTagsInAst]
      rw [hcomp]
      rfl
  · intro file v ast cs1 cs2 ns1 ns2 hcalls hv hv2 hmiss
    have hor : ¬ (v = "graphql" ∨ v = "useStaticQuery") := by
      rintro (h | h)
      · exact hv h
      · exact hv2 h
    have hpn : processHookNode file ast.vars (AttrNode.ident v) =
        ([], [Note.warnUnknownQueryVariable v file "useStaticQuery"]) := by
      simp [processHookNode, hor, resolveQueryVariable, hmiss]
    constructor
    · have hwarn : Note.warnUnknownQueryVariable v file "useStaticQuery" ∈
          (hookPass file ast).2 := by
        apply hookPass_mem_snd file ast _ (AttrNode.ident v)
        · rw [hcalls]
          exact List.mem_append_right _ (List.mem_cons_self _ _)
        · exact ⟨rfl, rfl⟩
        · exact List.mem_append_right _ (List.mem_cons_self _ _)
        · rw [hpn]
          exact List.mem_singleton.mpr rfl
      simp only [findTagsInAst, List.mem_append]
      exact Or.inl (Or.inr hwarn)
    · have hhook : (hookPass file ast).1 =
          (hookPass file
            { elems := ast.elems,
              calls := cs1 ++ ⟨"useStaticQuery", true, ns1 ++ ns2⟩ :: cs2,
              exports := ast.exports, vars := ast.vars }).1 := by
        simp only [hookPass, hcalls]
        simp [List.map_append, joinPairs_append, joinPairs_cons, hpn]
      simp only [findTagsInAst]
      rw [hhook]
      rfl

/-- Witness for C5 on a concrete file with one unresolvable identifier. -/
theorem unresolved_variable_nonfatal_witness :
    (([⟨"StaticQuery", [⟨"query", [AttrNode.ident "Missing"]⟩]⟩] :
        List JsxElem) =
      [] ++ ⟨"StaticQuery",
        [] ++ ⟨"query", [] ++ AttrNode.ident "Missing" :: []⟩ :: []⟩ :: []) ∧
    (Note.warnUnknownQueryVariable "Missing" "c5.js" "<StaticQuery>" ∈
        (findTagsInAst "c5.js"
          ⟨[⟨"StaticQuery", [⟨"query", [AttrNode.ident "Missing"]⟩]⟩],
           [], [⟨[exTemplateQ]⟩], []⟩).2 ∧
      (findTagsInAst "c5.js"
          ⟨[⟨"StaticQuery", [⟨"query", [AttrNode.ident "Missing"]⟩]⟩],
           [], [⟨[exTemplateQ]⟩], []⟩).1 =
        (findTagsInAst "c5.js"
          { elems := [] ++ ⟨"StaticQuery", [] ++ ⟨"query", [] ++ []⟩ :: []⟩ :: [],
            calls := [], exports := [⟨[exTemplateQ]⟩], vars := [] }).1) :=
  ⟨by decide,
   unresolved_variable_nonfatal.1 "c5.js" "Missing"
     ⟨[⟨"StaticQuery", [⟨"query", [AttrNode.ident "Missing"]⟩]⟩],
      [], [⟨[exTemplateQ]⟩], []⟩
     [] [] [] [] [] [] (by decide) (by decide) (by decide)⟩

/-- C10: when call sites reference a variable bound to a tagged template,
every resolution produces fragments keyed by the variable's template
offset and the definition's offset — independent of the call site — so the
returned document contains exactly one fragment with that location key no
matter how many call sites reference the variable. -/
theorem single_fragment_for_shared_variable
    (file v : String) (ast : Ast) (t : TaggedTemplate) (d : GqlDefNode)
    (e : JsxElem) (a : JsxAttr)
    (he : e ∈ ast.elems) (hen : e.name = "StaticQuery")
    (ha : a ∈ e.attrs) (han : a.name = "query")
    (hnode : AttrNode.ident v ∈ a.nodes) (hv : v ≠ "graphql")
    (ht : t ∈ taggedInits ast.vars v) (htag : t.isGraphqlTag = true)
    (hd : d ∈ t.defs) :
    (findTagsInAst file ast).1.countP
      (fun f => f.locationKey == mkLocationKey t.start d.locStart) = 1 := by
  have htagres : getGraphQLTag t = some ⟨t.defs, t.text, t.hash, t.isGlobal⟩ := by
    simp [getGraphQLTag, htag]
  have hfragmem : ∃ f ∈ (extractStaticQuery file t false).1,
      f.locationKey = mkLocationKey t.start d.locStart := by
    refine ⟨⟨generateQueryName d.nameValue t.hash file,
      mkLocationKey t.start d.locStart, some true, some false,
      some t.text, some t.hash⟩, ?_, rfl⟩
    simp only [extractStaticQuery, htagres]
    exact List.mem_map_of_mem _ hd
  obtain ⟨f0, hf0, hkey⟩ := hfragmem
  have hresolve : f0 ∈ (resolveQueryVariable file ast.vars v false "<StaticQuery>").1 := by
    have hne : (taggedInits ast.vars v).isEmpty = false :=
      List.isEmpty_eq_false.mpr (List.ne_nil_of_mem ht)
    simp only [resolveQueryVariable, hne, Bool.false_eq_true, if_false]
    exact mem_joinPairs_fst.mpr ⟨_, List.mem_map_of_mem _ ht, hf0⟩
  have hproc : f0 ∈ (processComponentNode file ast.vars (AttrNode.ident v)).1 := by
    simp only [processComponentNode, hv, if_false]
    exact hresolve
  have hcp : f0 ∈ (componentPass file ast).1 :=
    componentPass_mem_fst file ast e a (AttrNode.ident v) f0 he hen ha han hnode hproc
  have hcomb : f0 ∈ (componentPass file ast).1 ++ (hookPass file ast).1 ++
      (pagePass file ast).1 :=
    List.mem_append_left _ (List.mem_append_left _ hcp)
  have hfilne : ((componentPass file ast).1 ++ (hookPass file ast).1 ++
      (pagePass file ast).1).filter
        (fun f => f.locationKey == mkLocationKey t.start d.locStart) ≠ [] := by
    apply List.ne_nil_of_mem
    exact List.mem_filter.mpr ⟨hcomb, by simp [hkey]⟩
  simp only [findTagsInAst, List.countP_eq_length_filter, dedupe_filter]
  cases hfil : ((componentPass file ast).1 ++ (hookPass file ast).1 ++
      (pagePass file ast).1).filter
        (fun f => f.locationKey == mkLocationKey t.start d.locStart) with
  | nil => exact absurd hfil hfilne
  | cons x xs => simp [List.take]

/-- Witness for C10 on a file with two StaticQuery sites sharing one
variable: the returned document still has exactly one fragment with the
variable's location key. -/
theorem single_fragment_for_shared_variable_witness :
    ((⟨"StaticQuery", [⟨"query", [AttrNode.ident "Q"]⟩]⟩ : JsxElem) ∈
        exAstTwoSites.elems ∧
      exTemplateQ ∈ taggedInits exAstTwoSites.vars "Q" ∧
      exTemplateQ.isGraphqlTag = true ∧ exDefUnnamed ∈ exTemplateQ.defs) ∧
    (findTagsInAst "two.js" exAstTwoSites).1.countP
      (fun f => f.locationKey ==
        mkLocationKey exTemplateQ.start exDefUnnamed.locStart) = 1 :=
  ⟨⟨by decide, by decide, by decide, by decide⟩,
   single_fragment_for_shared_variable "two.js" "Q" exAstTwoSites exTemplateQ
     exDefUnnamed ⟨"StaticQuery", [⟨"query", [AttrNode.ident "Q"]⟩]⟩
     ⟨"query", [AttrNode.ident "Q"]⟩ (by decide) (by decide) (by decide)
     (by decide) (by decide) (by decide) (by decide) (by decide) (by decide)⟩

/-- C9: starting from a cache coherent with the world (in particular the
empty cache), parseFiles runs parseFile on every path and its result holds
exactly the entries whose document is non-null: a file appears in the map
with document d precisely when it is in the batch and its own parse
produces d, so a read or parse failure in one file (a null document)
neither aborts the batch nor removes other files' entries. -/
theorem parseFiles_exact_entries (w : World) (c : Cache) (files : List String)
    (hc : CacheCoherent w c) (f : String) (d : Document) :
    (f, d) ∈ (parseFiles w c files).1 ↔ f ∈ files ∧ pureParse w f = some d :=
  parseFiles_mem w files c hc f d

/-- Witness for C9: in a batch with one good file and one unreadable file,
the good file's document is present. -/
theorem parseFiles_exact_entries_witness :
    ("a.js", exDocA) ∈ (parseFiles exWorldA [] ["a.js", "missing.js"]).1 :=
  (parseFiles_exact_entries exWorldA [] ["a.js", "missing.js"]
      (fun _file _fd _defs _hr hl => Option.noConfusion hl) "a.js" exDocA).mpr
    ⟨by decide, by decide⟩

end QueryExtraction
